import Mathlib

/-!
Verification of `src/scripts/extract-button-tokens.py`.

The script walks a parsed Figma document export (a JSON tree), collects every
object node whose `type` is `"COMPONENT"` and whose `name` contains the
substring `"Button"`, and writes the first ten collected records to a cache
file as indented JSON.  We embed the JSON data model and the walk shallowly:
Python dicts become association lists (insertion ordered, unique keys after
`json.load`), Python exceptions become `Except String`, and the walk's mutable
accumulator becomes explicit accumulator passing.
-/

/-- A parsed JSON value, as produced by Python's `json.load`.  Numbers are
modelled as integers: the script never computes with numbers, it only passes
them through, and no claim depends on non-integer literals. -/
inductive Json where
  | null
  | bool (b : Bool)
  | num (n : Int)
  | str (s : String)
  | arr (xs : List Json)
  | obj (fields : List (String × Json))
deriving Repr

/-- `fields.get(key)` on a Python dict (association list with unique keys):
the value at the first matching key, if any. -/
def lookupField : List (String × Json) → String → Option Json
  | [], _ => none
  | (k, v) :: rest, key => if k = key then some v else lookupField rest key

/-- `key in fields` on a Python dict. -/
def hasKey (fields : List (String × Json)) (key : String) : Bool :=
  match lookupField fields key with
  | some _ => true
  | none => false

/-- `fields.get(key)` where an absent key serialises as JSON `null`
(Python `None`). -/
def getOrNull (fields : List (String × Json)) (key : String) : Json :=
  (lookupField fields key).getD Json.null

/-- Does `hay` start with `needle`?  (Character-list level.) -/
def charsLeadWith : List Char → List Char → Bool
  | [], _ => true
  | _ :: _, [] => false
  | a :: as, b :: bs => a = b && charsLeadWith as bs

/-- Does `needle` occur as a contiguous run inside `hay`?
(Character-list level.) -/
def charsContainSub (needle : List Char) : List Char → Bool
  | [] => charsLeadWith needle []
  | c :: rest => charsLeadWith needle (c :: rest) || charsContainSub needle rest

/-- Python's `needle in hay` on strings: contiguous substring test. -/
def strContains (hay needle : String) : Bool :=
  charsContainSub needle.data hay.data

/-- Python's `needle in container` for a string needle, over any JSON value:
substring test on strings, element equality on lists, key membership on
dicts, and a `TypeError` on non-iterable values. -/
def pyContains (needle : String) (v : Json) : Except String Bool :=
  match v with
  | Json.str s => Except.ok (strContains s needle)
  | Json.arr xs =>
      Except.ok (xs.any fun x =>
        match x with
        | Json.str t => t = needle
        | _ => false)
  | Json.obj fs => Except.ok (hasKey fs needle)
  | _ => Except.error "TypeError: argument is not iterable"

/-- `node.get('type') == 'COMPONENT'`: a missing or non-string `type` field
compares unequal to the string literal. -/
def typeIsComponent (fields : List (String × Json)) : Bool :=
  match lookupField fields "type" with
  | some (Json.str s) => s = "COMPONENT"
  | _ => false

/-- Line 17 of the script:
`node.get('type') == 'COMPONENT' and 'Button' in node.get('name', '')`.
Python's `and` short-circuits, so the `in` test (which can raise) is only
evaluated when the type check passes. -/
def nodeMatches (fields : List (String × Json)) : Except String Bool :=
  if typeIsComponent fields then
    pyContains "Button" ((lookupField fields "name").getD (Json.str ""))
  else
    Except.ok false

/-- `nodeMatches` succeeded with `True`. -/
def matchB (fields : List (String × Json)) : Bool :=
  match nodeMatches fields with
  | Except.ok true => true
  | _ => false

/-- Lines 26-48 of the script: the `properties` dict, built by successive
conditional insertions with pairwise-distinct keys, so insertion order is
the textual order of the `if` statements. -/
def extractProps (fields : List (String × Json)) : List (String × Json) :=
  (if hasKey fields "fills" then [("fills", getOrNull fields "fills")] else []) ++
  (if hasKey fields "strokes" then [("strokes", getOrNull fields "strokes")] else []) ++
  (if hasKey fields "effects" then [("effects", getOrNull fields "effects")] else []) ++
  (if hasKey fields "cornerRadius" then [("cornerRadius", getOrNull fields "cornerRadius")] else []) ++
  (if hasKey fields "paddingLeft" then
    [("padding", Json.obj
      [("left", getOrNull fields "paddingLeft"),
       ("right", getOrNull fields "paddingRight"),
       ("top", getOrNull fields "paddingTop"),
       ("bottom", getOrNull fields "paddingBottom")])]
   else []) ++
  (if hasKey fields "itemSpacing" then [("itemSpacing", getOrNull fields "itemSpacing")] else []) ++
  (if hasKey fields "layoutMode" then [("layoutMode", getOrNull fields "layoutMode")] else []) ++
  (if hasKey fields "characters" then [("text", getOrNull fields "characters")] else []) ++
  (if hasKey fields "style" then [("textStyle", getOrNull fields "style")] else [])

/-- Lines 18-23: the `component_info` record for a matched node, keys in
insertion order. -/
def mkComponent (fields : List (String × Json)) (path : String) : Json :=
  Json.obj
    [("name", getOrNull fields "name"),
     ("id", getOrNull fields "id"),
     ("path", Json.str path),
     ("properties", Json.obj (extractProps fields))]

theorem sizeOf_lookupField {fs : List (String × Json)} {k : String} {v : Json}
    (h : lookupField fs k = some v) : sizeOf v < sizeOf fs := by
  induction fs with
  | nil => simp [lookupField] at h
  | cons p rest ih =>
      obtain ⟨a, b⟩ := p
      by_cases hk : a = k
      · simp [lookupField, hk] at h
        subst h
        simp
        omega
      · simp [lookupField, hk] at h
        have := ih h
        simp
        omega

/-- The single-quote character, ASCII 39. -/
def sqChar : Char := Char.ofNat 39

/-- Python `repr` escaping for one character of a single-quoted string:
backslash, the quote itself, newline, carriage return and tab are escaped;
other characters pass through (Python additionally hex-escapes unprintable
characters, which the document names in scope here do not contain). -/
def pyReprChar (c : Char) : String :=
  if c = '\\' then "\\\\"
  else if c = sqChar then "\\" ++ String.singleton sqChar
  else if c = '\n' then "\\n"
  else if c = '\r' then "\\r"
  else if c = '\t' then "\\t"
  else String.singleton c

/-- Python `repr` of a string: single-quoted with escapes. -/
def pyReprString (s : String) : String :=
  String.singleton sqChar ++ String.join (s.data.map pyReprChar) ++ String.singleton sqChar

/-- Python's `repr(v)` over parsed-JSON values: `None`/`True`/`False`,
decimal integers, single-quoted strings, and bracketed comma-joined
containers. -/
def pyRepr (v : Json) : String :=
  match v with
  | Json.null => "None"
  | Json.bool true => "True"
  | Json.bool false => "False"
  | Json.num n => toString n
  | Json.str s => pyReprString s
  | Json.arr xs =>
      "[" ++ String.intercalate ", " (xs.attach.map fun x => pyRepr x.1) ++ "]"
  | Json.obj fs =>
      "\x7b" ++
        String.intercalate ", "
          (fs.attach.map fun p => pyReprString p.1.1 ++ ": " ++ pyRepr p.1.2) ++
      "\x7d"
termination_by sizeOf v
decreasing_by
  · have := List.sizeOf_lt_of_mem x.2
    simp at *
    omega
  · obtain ⟨⟨a, b⟩, hm⟩ := p
    have := List.sizeOf_lt_of_mem hm
    simp at *
    omega

/-- Python's `str(v)` as used in the f-string on line 54 of the script:
strings pass through unquoted, every other value falls back to its `repr`. -/
def pyStr : Json → String
  | Json.str s => s
  | v => pyRepr v

/-- The f-string of line 54: `f"{path}/{node.get('name', 'unnamed')}"`. -/
def childPath (fields : List (String × Json)) (path : String) : String :=
  path ++ "/" ++ pyStr ((lookupField fields "name").getD (Json.str "unnamed"))

mutual

/-- Lines 10-58 of the script, `find_components(node, path, components)`.
The mutable `components` list is threaded as the accumulator `acc`; a raised
exception becomes `Except.error`.  Iterating a string or a dict under a
`children` key yields strings (one-character strings, resp. the keys), which
the recursive calls ignore because they are not dicts, so those branches
return the accumulator unchanged; iterating `None`, a bool or a number
raises `TypeError`. -/
def find_components (node : Json) (path : String) (acc : List Json) :
    Except String (List Json) :=
  match node with
  | Json.obj fields =>
      match nodeMatches fields with
      | Except.error e => Except.error e
      | Except.ok b =>
          let acc1 := if b then acc ++ [mkComponent fields path] else acc
          match h : lookupField fields "children" with
          | none => Except.ok acc1
          | some (Json.arr xs) => find_components_children xs (childPath fields path) acc1
          | some (Json.str _) => Except.ok acc1
          | some (Json.obj _) => Except.ok acc1
          | some Json.null => Except.error "TypeError: object is not iterable"
          | some (Json.bool _) => Except.error "TypeError: object is not iterable"
          | some (Json.num _) => Except.error "TypeError: object is not iterable"
  | _ => Except.ok acc
termination_by sizeOf node
decreasing_by
  · have h1 := sizeOf_lookupField h
    simp at *
    omega

/-- The `for child in node['children']` loop of lines 55-56. -/
def find_components_children (children : List Json) (path : String)
    (acc : List Json) : Except String (List Json) :=
  match children with
  | [] => Except.ok acc
  | c :: rest =>
      match find_components c path acc with
      | Except.error e => Except.error e
      | Except.ok acc2 => find_components_children rest path acc2
termination_by sizeOf children
decreasing_by
  all_goals simp
  all_goals omega

end

/-- A lowercase hexadecimal digit. -/
def hexDigit (n : Nat) : Char :=
  Char.ofNat (if n < 10 then 48 + n else 87 + n)

/-- Four lowercase hexadecimal digits, as in a JSON `\uXXXX` escape. -/
def hex4 (n : Nat) : String :=
  String.mk [hexDigit (n / 4096 % 16), hexDigit (n / 256 % 16),
             hexDigit (n / 16 % 16), hexDigit (n % 16)]

/-- `json.dump` escaping of one character under the default
`ensure_ascii=True`: the two-character escapes for quote, backslash and
control characters with short forms, printable ASCII verbatim, and `\uXXXX`
(with surrogate pairs beyond the basic plane) for everything else. -/
def jsonEscChar (c : Char) : String :=
  if c = Char.ofNat 34 then "\\\""
  else if c = '\\' then "\\\\"
  else if c = '\n' then "\\n"
  else if c = '\r' then "\\r"
  else if c = '\t' then "\\t"
  else if c = Char.ofNat 8 then "\\b"
  else if c = Char.ofNat 12 then "\\f"
  else if 32 ≤ c.toNat ∧ c.toNat ≤ 126 then String.singleton c
  else if c.toNat < 65536 then "\\u" ++ hex4 c.toNat
  else
    "\\u" ++ hex4 (55296 + (c.toNat - 65536) / 1024) ++
    "\\u" ++ hex4 (56320 + (c.toNat - 65536) % 1024)

/-- `json.dump` serialisation of a string: double-quoted, escaped. -/
def jsonEscString (s : String) : String :=
  "\"" ++ String.join (s.data.map jsonEscChar) ++ "\""

/-- `n` space characters. -/
def nSpaces (n : Nat) : String :=
  String.mk (List.replicate n (Char.ofNat 32))

/-- `json.dump(v, f, indent=2)` (line 85 of the script), at current
indentation depth `ind`: with an explicit `indent`, Python separates items
by a comma followed by a newline and the deeper indentation, uses `": "`
between a key and its value, and prints empty containers compactly. -/
def jsonDump (v : Json) (ind : Nat) : String :=
  match v with
  | Json.null => "null"
  | Json.bool true => "true"
  | Json.bool false => "false"
  | Json.num n => toString n
  | Json.str s => jsonEscString s
  | Json.arr [] => "[]"
  | Json.arr xs =>
      "[\n" ++
      String.intercalate ",\n"
        (xs.attach.map fun x => nSpaces (ind + 2) ++ jsonDump x.1 (ind + 2)) ++
      "\n" ++ nSpaces ind ++ "]"
  | Json.obj [] => "\x7b\x7d"
  | Json.obj fs =>
      "\x7b\n" ++
      String.intercalate ",\n"
        (fs.attach.map fun p =>
          nSpaces (ind + 2) ++ jsonEscString p.1.1 ++ ": " ++ jsonDump p.1.2 (ind + 2)) ++
      "\n" ++ nSpaces ind ++ "\x7d"
termination_by sizeOf v
decreasing_by
  · have := List.sizeOf_lt_of_mem x.2
    simp at *
    omega
  · obtain ⟨⟨a, b⟩, hm⟩ := p
    have := List.sizeOf_lt_of_mem hm
    simp at *
    omega

/-- Lines 60-89, `extract_button_tokens`, pure part: `data.get('document', {})`
selects the walk root (an absent key defaults to an empty dict; on a non-dict
top-level value `.get` raises `AttributeError`), and the full component list is
returned.  The console report of lines 73-80 is print-only and does not affect
the returned or persisted data, so it is not modelled; its only possible
exception (line 76 hashing an unhashable matched `name`) cannot occur for
string or absent names. -/
def extract_button_tokens (data : Json) : Except String (List Json) :=
  match data with
  | Json.obj fs => find_components ((lookupField fs "document").getD (Json.obj [])) "" []
  | _ => Except.error "AttributeError: object has no attribute get"

/-- Lines 82-85: the byte content written to
`.figma/cache/button-components.json`, namely
`json.dump(components[:10], f, indent=2)`. -/
def persistedSample (data : Json) : Except String String :=
  match extract_button_tokens data with
  | Except.error e => Except.error e
  | Except.ok comps => Except.ok (jsonDump (Json.arr (comps.take 10)) 0)

/-- The observable outcome of one run of the script: exit status, the content
written to the output file (`none` when it is never opened for writing), and
the lines printed on the failure paths.  The informational progress prints of
the success path are not tracked. -/
structure RunOutcome where
  exitCode : Nat
  written : Option String
  errLines : List String
deriving Repr, DecidableEq

/-- Lines 91-104, the `__main__` block.  The parameter models the state of the
fixed input file `.figma/cache/file-full.json`: `none` when the file does not
exist (line 94), `some (Except.error e)` when it exists but `json.load` raises
`e` (caught by the `try` of lines 99-104), and `some (Except.ok d)` when it
parses to `d`.  The output file is opened for writing (line 84) only after
`find_components` has returned, so no failing path writes it. -/
def runMain (input : Option (Except String Json)) : RunOutcome :=
  match input with
  | none =>
      { exitCode := 1, written := none,
        errLines := ["❌ No se encontró el archivo file-full.json",
                     "   Ejecuta primero el comando para descargar el archivo"] }
  | some (Except.error e) =>
      { exitCode := 1, written := none, errLines := ["❌ Error: " ++ e] }
  | some (Except.ok d) =>
      match persistedSample d with
      | Except.error e =>
          { exitCode := 1, written := none, errLines := ["❌ Error: " ++ e] }
      | Except.ok s => { exitCode := 0, written := some s, errLines := [] }

/-- The string interpolated for a node when building its children's path:
`node.get('name', 'unnamed')` passed through `str`. -/
def nodeNameStr (fields : List (String × Json)) : String :=
  pyStr ((lookupField fields "name").getD (Json.str "unnamed"))

mutual

/-- Modelled from the spec (§4.1 `findComponents`, traversal order): the
pre-order depth-first visitation sequence of the walk — each dict node paired
with the accumulated path at which it is visited, the node itself before its
children, children in their given order, non-dict nodes never visited.  This
is the comparison point for the refinement claim about traversal order; it is
total (it ignores the error outcomes, which abort `find_components`). -/
def preorderVisits (node : Json) (path : String) :
    List (List (String × Json) × String) :=
  match node with
  | Json.obj fields =>
      (fields, path) ::
        (match h : lookupField fields "children" with
         | some (Json.arr xs) => preorderVisitsChildren xs (childPath fields path)
         | none => []
         | some Json.null => []
         | some (Json.bool _) => []
         | some (Json.num _) => []
         | some (Json.str _) => []
         | some (Json.obj _) => [])
  | _ => []
termination_by sizeOf node
decreasing_by
  · have h1 := sizeOf_lookupField h
    simp at *
    omega

/-- Child-list part of `preorderVisits`. -/
def preorderVisitsChildren (children : List Json) (path : String) :
    List (List (String × Json) × String) :=
  match children with
  | [] => []
  | c :: rest => preorderVisits c path ++ preorderVisitsChildren rest path
termination_by sizeOf children
decreasing_by
  all_goals simp
  all_goals omega

end

/-- `ReachesVia n p ns m q`: starting the walk at node `n` with accumulated
path `p`, descending through `children` links reaches the node `m` with
accumulated path `q`, the descended-through nodes contributing the name
segments `ns` (each segment the node's interpolated name, `"unnamed"` when
absent).  This is the ancestor-chain relation of the walk of lines 53-56. -/
inductive ReachesVia :
    Json → String → List String → Json → String → Prop where
  | here (node : Json) (p : String) : ReachesVia node p [] node p
  | child (fields : List (String × Json)) (p : String) (xs : List Json)
      (c : Json) (ns : List String) (m : Json) (q : String) :
      lookupField fields "children" = some (Json.arr xs) →
      c ∈ xs →
      ReachesVia c (childPath fields p) ns m q →
      ReachesVia (Json.obj fields) p (nodeNameStr fields :: ns) m q


/-- The components the walk produces from a visit sequence: one record per
visited node that passes the match test, in visit order. -/
def matchedComponents (vs : List (List (String × Json) × String)) : List Json :=
  (vs.filter fun fq => matchB fq.1).map fun fq => mkComponent fq.1 fq.2

theorem matchedComponents_cons (f : List (String × Json)) (q : String)
    (vs : List (List (String × Json) × String)) :
    matchedComponents ((f, q) :: vs) =
      (if matchB f then [mkComponent f q] else []) ++ matchedComponents vs := by
  by_cases h : matchB f <;> simp [matchedComponents, List.filter_cons, h]

theorem matchedComponents_append (a b : List (List (String × Json) × String)) :
    matchedComponents (a ++ b) = matchedComponents a ++ matchedComponents b := by
  simp [matchedComponents]

theorem matchB_of_nodeMatches {fields : List (String × Json)} {b : Bool}
    (h : nodeMatches fields = Except.ok b) : matchB fields = b := by
  cases b <;> simp [matchB, h]

/-- `find_components` on a dict node, restated without the dependent match on
the `children` lookup, for rewriting. -/
theorem find_components_obj (fields : List (String × Json)) (path : String)
    (acc : List Json) :
    find_components (Json.obj fields) path acc =
      match nodeMatches fields with
      | Except.error e => Except.error e
      | Except.ok b =>
          let acc1 := if b then acc ++ [mkComponent fields path] else acc
          match lookupField fields "children" with
          | none => Except.ok acc1
          | some (Json.arr xs) => find_components_children xs (childPath fields path) acc1
          | some (Json.str _) => Except.ok acc1
          | some (Json.obj _) => Except.ok acc1
          | some Json.null => Except.error "TypeError: object is not iterable"
          | some (Json.bool _) => Except.error "TypeError: object is not iterable"
          | some (Json.num _) => Except.error "TypeError: object is not iterable" := by
  rw [find_components.eq_def]
  cases hm : nodeMatches fields <;> simp [hm]
  split <;> rename_i heq <;> simp [heq]

/-- `preorderVisits` on a dict node, restated without the dependent match. -/
theorem preorderVisits_obj (fields : List (String × Json)) (path : String) :
    preorderVisits (Json.obj fields) path =
      (fields, path) ::
        (match lookupField fields "children" with
         | some (Json.arr xs) => preorderVisitsChildren xs (childPath fields path)
         | _ => []) := by
  rw [preorderVisits.eq_def]
  simp
  split <;> rename_i heq <;> simp [heq]

/-- When the walk of lines 10-58 succeeds, its result extends the incoming
accumulator with exactly the matched components of the pre-order visit
sequence, in visit order. -/
theorem find_components_ok_eq :
    ∀ (node : Json) (path : String) (acc l : List Json),
      find_components node path acc = Except.ok l →
      l = acc ++ matchedComponents (preorderVisits node path) := by
  intro node path acc
  refine find_components.induct
    (fun node path acc => ∀ l, find_components node path acc = Except.ok l →
        l = acc ++ matchedComponents (preorderVisits node path))
    (fun cs path acc => ∀ l, find_components_children cs path acc = Except.ok l →
        l = acc ++ matchedComponents (preorderVisitsChildren cs path))
    ?_ ?_ ?_ ?_ ?_ ?_ ?_ ?_ ?_ ?_ ?_ ?_ node path acc
  · intro path acc fields e hm l hl
    rw [find_components_obj] at hl
    simp [hm] at hl
  · intro path acc fields b hm hch l hl
    rw [find_components_obj] at hl
    simp [hm, hch] at hl
    rw [preorderVisits_obj]
    simp [hch, matchedComponents_cons, matchB_of_nodeMatches hm]
    cases b <;> simp_all [matchedComponents]
  · intro path acc fields b hm acc1 xs hch ih l hl
    rw [find_components_obj] at hl
    simp [hm, hch] at hl
    have hstep := ih l (by simpa [acc1] using hl)
    rw [preorderVisits_obj]
    simp [hch, matchedComponents_cons, matchB_of_nodeMatches hm]
    cases b <;> simp_all [acc1]
  · intro path acc fields b hm s hch l hl
    rw [find_components_obj] at hl
    simp [hm, hch] at hl
    rw [preorderVisits_obj]
    simp [hch, matchedComponents_cons, matchB_of_nodeMatches hm]
    cases b <;> simp_all [matchedComponents]
  · intro path acc fields b hm fields1 hch l hl
    rw [find_components_obj] at hl
    simp [hm, hch] at hl
    rw [preorderVisits_obj]
    simp [hch, matchedComponents_cons, matchB_of_nodeMatches hm]
    cases b <;> simp_all [matchedComponents]
  · intro path acc fields b hm hch l hl
    rw [find_components_obj] at hl
    simp [hm, hch] at hl
  · intro path acc fields b hm v hch l hl
    rw [find_components_obj] at hl
    simp [hm, hch] at hl
  · intro path acc fields b hm n hch l hl
    rw [find_components_obj] at hl
    simp [hm, hch] at hl
  · intro node path acc hno l hl
    rw [find_components.eq_def] at hl
    cases node <;> simp at hl <;> try (subst hl; simp [preorderVisits, matchedComponents])
    exact absurd rfl (hno _)
  · intro path acc l hl
    simp [find_components_children] at hl
    subst hl
    simp [preorderVisitsChildren, matchedComponents]
  · intro path acc c rest e hc ih l hl
    simp [find_components_children, hc] at hl
  · intro path acc c rest acc2 hc ih1 ih2 l hl
    simp [find_components_children, hc] at hl
    have h1 := ih1 acc2 hc
    have h2 := ih2 l hl
    rw [preorderVisitsChildren]
    simp [matchedComponents_append, h2, h1]

/-- The accumulated path at a reached node is the fold of the `"/"`-prepended
ancestor name segments over the starting path. -/
theorem reachesVia_path {n : Json} {p : String} {ns : List String} {m : Json}
    {q : String} (h : ReachesVia n p ns m q) :
    q = ns.foldl (fun a s => a ++ "/" ++ s) p := by
  induction h with
  | here node p => rfl
  | child fields p xs c ns m q hch hmem hrest ih => simpa [childPath, nodeNameStr] using ih

theorem mem_preorderVisitsChildren {xs : List Json} {c : Json} {path : String}
    {v : List (String × Json) × String} (hmem : c ∈ xs)
    (hv : v ∈ preorderVisits c path) : v ∈ preorderVisitsChildren xs path := by
  induction xs with
  | nil => simp at hmem
  | cons a rest ih =>
      rw [preorderVisitsChildren]
      rcases List.mem_cons.mp hmem with h | h
      · subst h
        exact List.mem_append.mpr (Or.inl hv)
      · exact List.mem_append.mpr (Or.inr (ih h))

/-- Every node the ancestor-chain relation reaches is in the pre-order visit
sequence, at its accumulated path. -/
theorem reachesVia_mem_visits {n : Json} {p : String} {ns : List String}
    {m : Json} {q : String} (h : ReachesVia n p ns m q)
    {fields : List (String × Json)} (hm : m = Json.obj fields) :
    (fields, q) ∈ preorderVisits n p := by
  induction h with
  | here node p =>
      subst hm
      rw [preorderVisits_obj]
      exact List.mem_cons_self _ _
  | child fields2 p xs c ns m q hch hmem hrest ih =>
      rw [preorderVisits_obj]
      refine List.mem_cons_of_mem _ ?_
      simp only [hch]
      exact mem_preorderVisitsChildren hmem (ih hm)

/-- `charsLeadWith needle hay` holds exactly when `needle` heads `hay`. -/
theorem charsLeadWith_iff (needle : List Char) :
    ∀ hay : List Char, charsLeadWith needle hay = true ↔ ∃ t, hay = needle ++ t := by
  induction needle with
  | nil => intro hay; simp [charsLeadWith]
  | cons a as ih =>
      intro hay
      cases hay with
      | nil =>
          simp [charsLeadWith]
      | cons b bs =>
          simp only [charsLeadWith, Bool.and_eq_true, decide_eq_true_eq, ih bs]
          constructor
          · rintro ⟨rfl, t, rfl⟩
            exact ⟨t, rfl⟩
          · rintro ⟨t, ht⟩
            injection ht with h1 h2
            exact ⟨h1.symm, t, h2⟩

/-- `charsContainSub needle hay` holds exactly when `needle` occurs
contiguously inside `hay`. -/
theorem charsContainSub_iff (needle : List Char) :
    ∀ hay : List Char,
      charsContainSub needle hay = true ↔ ∃ l r, hay = l ++ needle ++ r := by
  intro hay
  induction hay with
  | nil =>
      simp only [charsContainSub, charsLeadWith_iff]
      constructor
      · rintro ⟨t, ht⟩
        exact ⟨[], t, ht⟩
      · rintro ⟨l, r, h⟩
        rcases List.append_eq_nil.mp (List.append_eq_nil.mp h.symm).1 with ⟨h1, h2⟩
        exact ⟨r, by simp [h2, (List.append_eq_nil.mp h.symm).2]⟩
  | cons c rest ih =>
      simp only [charsContainSub, Bool.or_eq_true, charsLeadWith_iff, ih]
      constructor
      · rintro (⟨t, ht⟩ | ⟨l, r, hr⟩)
        · exact ⟨[], t, by simp [ht]⟩
        · exact ⟨c :: l, r, by simp [hr]⟩
      · rintro ⟨l, r, hr⟩
        cases l with
        | nil =>
            left
            exact ⟨r, by simpa using hr⟩
        | cons x lrest =>
            right
            injection hr with h1 h2
            exact ⟨lrest, r, h2⟩

/-- `strContains` is the substring relation on the underlying characters. -/
theorem strContains_iff (hay needle : String) :
    strContains hay needle = true ↔
      ∃ l r, hay.data = l ++ needle.data ++ r := by
  exact charsContainSub_iff needle.data hay.data

/-- The `name` field of a node treated as a string, a missing name treated as
the empty string (the reading of `node.get('name', '')` for string-or-absent
names). -/
def nameString (fields : List (String × Json)) : String :=
  match lookupField fields "name" with
  | some (Json.str s) => s
  | _ => ""

/-- `name`, when present, holds a string — the `DocumentNode` data model,
under which the spec speaks. -/
def nameWF (fields : List (String × Json)) : Prop :=
  lookupField fields "name" = none ∨
    ∃ s, lookupField fields "name" = some (Json.str s)

theorem matchB_true_iff (fields : List (String × Json)) :
    matchB fields = true ↔ nodeMatches fields = Except.ok true := by
  unfold matchB
  cases h : nodeMatches fields with
  | error e => simp
  | ok b => cases b <;> simp

/-- The match rule of line 17, for nodes whose `name` is a string or absent:
the node matches exactly when its `type` is the string `"COMPONENT"` and its
name string has `"Button"` as a contiguous substring. -/
theorem nodeMatches_iff (fields : List (String × Json)) (hwf : nameWF fields) :
    nodeMatches fields = Except.ok true ↔
      typeIsComponent fields = true ∧
        strContains (nameString fields) "Button" = true := by
  unfold nodeMatches
  by_cases ht : typeIsComponent fields
  · rcases hwf with h | ⟨s, h⟩ <;>
      simp [ht, h, nameString, pyContains, strContains, charsContainSub, charsLeadWith]
  · simp [ht]

/-- Field access on an `ExtractedComponent` record (a JSON dict). -/
def componentField (c : Json) (key : String) : Option Json :=
  match c with
  | Json.obj fs => lookupField fs key
  | _ => none

theorem lookupField_seg_ne (c : Prop) [Decidable c] (k1 : String) (v1 : Json)
    (rest : List (String × Json)) (key : String) (hne : k1 ≠ key) :
    lookupField ((if c then [(k1, v1)] else []) ++ rest) key =
      lookupField rest key := by
  by_cases hc : c <;> simp [hc, lookupField, hne]

theorem lookupField_seg_eq (c : Prop) [Decidable c] (k1 : String) (v1 : Json)
    (rest : List (String × Json)) :
    lookupField ((if c then [(k1, v1)] else []) ++ rest) k1 =
      if c then some v1 else lookupField rest k1 := by
  by_cases hc : c <;> simp [hc, lookupField]

theorem lookupField_seg_ne' (c : Prop) [Decidable c] (k1 : String) (v1 : Json)
    (key : String) (hne : k1 ≠ key) :
    lookupField (if c then [(k1, v1)] else []) key = none := by
  by_cases hc : c <;> simp [hc, lookupField, hne]

theorem lookupField_seg_eq' (c : Prop) [Decidable c] (k1 : String) (v1 : Json) :
    lookupField (if c then [(k1, v1)] else []) k1 =
      if c then some v1 else none := by
  by_cases hc : c <;> simp [hc, lookupField]

theorem mkComponent_mem_matchedComponents
    {vs : List (List (String × Json) × String)} {f : List (String × Json)}
    {q : String} (hv : (f, q) ∈ vs) (hm : matchB f = true) :
    mkComponent f q ∈ matchedComponents vs := by
  unfold matchedComponents
  exact List.mem_map_of_mem _ (List.mem_filter.mpr ⟨hv, by simp [hm]⟩)

theorem pathFoldl_extends (ns : List String) :
    ∀ p : String, ∃ r, ns.foldl (fun a s => a ++ "/" ++ s) p = p ++ r := by
  induction ns with
  | nil => intro p; exact ⟨"", (String.append_empty p).symm⟩
  | cons n rest ih =>
      intro p
      obtain ⟨r, hr⟩ := ih (p ++ "/" ++ n)
      refine ⟨"/" ++ n ++ r, ?_⟩
      simp only [List.foldl, hr]
      apply String.ext
      simp

/-- C1: `find_components` records a node as a match if and only if the node is
a JSON object whose `type` field equals `"COMPONENT"` and whose `name` field
(a missing name treated as the empty string) contains `"Button"` as a
case-sensitive contiguous substring; in particular a single-node document
named `"button-primary"` yields no record and one named `"ButtonPrimary"`
yields one.  `matchB` is the walk's recording test: by `find_components_ok_eq`
the walk's output records exactly the visited nodes with `matchB`. -/
theorem C1_match_rule :
    (∀ fields : List (String × Json), nameWF fields →
      (matchB fields = true ↔
        typeIsComponent fields = true ∧
          ∃ l r, (nameString fields).data = l ++ "Button".data ++ r)) ∧
    find_components
        (Json.obj [("type", Json.str "COMPONENT"), ("name", Json.str "button-primary")])
        "" [] = Except.ok [] ∧
    find_components
        (Json.obj [("type", Json.str "COMPONENT"), ("name", Json.str "ButtonPrimary")])
        "" [] =
      Except.ok
        [mkComponent [("type", Json.str "COMPONENT"), ("name", Json.str "ButtonPrimary")] ""] := by
  refine ⟨?_, ?_, ?_⟩
  · intro fields hwf
    rw [matchB_true_iff, nodeMatches_iff fields hwf, strContains_iff]
  · simp [find_components_obj, nodeMatches, typeIsComponent, lookupField, pyContains,
      strContains, charsContainSub, charsLeadWith]
  · simp [find_components_obj, nodeMatches, typeIsComponent, lookupField, pyContains,
      strContains, charsContainSub, charsLeadWith]

/-- Witness for C1 at a concrete node: `name` is the string
`"ButtonPrimary"`, and the match-rule equivalence holds there. -/
theorem C1_match_rule_witness :
    nameWF [("type", Json.str "COMPONENT"), ("name", Json.str "ButtonPrimary")] ∧
      (matchB [("type", Json.str "COMPONENT"), ("name", Json.str "ButtonPrimary")] = true ↔
        typeIsComponent [("type", Json.str "COMPONENT"), ("name", Json.str "ButtonPrimary")] = true ∧
          ∃ l r,
            (nameString [("type", Json.str "COMPONENT"), ("name", Json.str "ButtonPrimary")]).data =
              l ++ "Button".data ++ r) :=
  ⟨Or.inr ⟨"ButtonPrimary", rfl⟩,
   C1_match_rule.1 _ (Or.inr ⟨"ButtonPrimary", rfl⟩)⟩

/-- C3: each token category appears in the `properties` map iff its underlying
source key is present on the node, with the raw source value passed through
(an equation between lookups states both at once: both sides are `none`
exactly when the source key is absent, and otherwise both are the raw source
value); `padding` is keyed solely on the presence of `paddingLeft` and, when
present, is the four-field composite whose missing sub-fields are `null`
(`getOrNull` is `none`-to-`Json.null`). -/
theorem C3_properties (fields : List (String × Json)) :
    lookupField (extractProps fields) "fills" = lookupField fields "fills" ∧
    lookupField (extractProps fields) "strokes" = lookupField fields "strokes" ∧
    lookupField (extractProps fields) "effects" = lookupField fields "effects" ∧
    lookupField (extractProps fields) "cornerRadius" = lookupField fields "cornerRadius" ∧
    lookupField (extractProps fields) "itemSpacing" = lookupField fields "itemSpacing" ∧
    lookupField (extractProps fields) "layoutMode" = lookupField fields "layoutMode" ∧
    lookupField (extractProps fields) "text" = lookupField fields "characters" ∧
    lookupField (extractProps fields) "textStyle" = lookupField fields "style" ∧
    hasKey (extractProps fields) "padding" = hasKey fields "paddingLeft" ∧
    (hasKey fields "paddingLeft" = true →
      lookupField (extractProps fields) "padding" =
        some (Json.obj
          [("left", getOrNull fields "paddingLeft"),
           ("right", getOrNull fields "paddingRight"),
           ("top", getOrNull fields "paddingTop"),
           ("bottom", getOrNull fields "paddingBottom")])) := by
  refine ⟨?_, ?_, ?_, ?_, ?_, ?_, ?_, ?_, ?_, ?_⟩ <;>
    simp [extractProps, lookupField_seg_eq, lookupField_seg_ne, lookupField_seg_eq',
      lookupField_seg_ne']
  · cases h : lookupField fields "fills" <;> simp [hasKey, getOrNull, h]
  · cases h : lookupField fields "strokes" <;> simp [hasKey, getOrNull, h]
  · cases h : lookupField fields "effects" <;> simp [hasKey, getOrNull, h]
  · cases h : lookupField fields "cornerRadius" <;> simp [hasKey, getOrNull, h]
  · cases h : lookupField fields "itemSpacing" <;> simp [hasKey, getOrNull, h]
  · cases h : lookupField fields "layoutMode" <;> simp [hasKey, getOrNull, h]
  · cases h : lookupField fields "characters" <;> simp [hasKey, getOrNull, h]
  · cases h : lookupField fields "style" <;> simp [hasKey, getOrNull, h]
  · cases h : lookupField fields "paddingLeft" <;>
      simp [hasKey, h, lookupField, lookupField_seg_eq, lookupField_seg_ne,
        lookupField_seg_eq', lookupField_seg_ne']

/-- Witness for C3 at the spec's composite-field test node:
`paddingLeft=8, paddingRight=8`, no `paddingTop`/`paddingBottom`, yielding
`padding = (left 8, right 8, top null, bottom null)`. -/
theorem C3_properties_witness :
    hasKey [("paddingLeft", Json.num 8), ("paddingRight", Json.num 8)] "paddingLeft" = true ∧
      lookupField
          (extractProps [("paddingLeft", Json.num 8), ("paddingRight", Json.num 8)]) "padding" =
        some (Json.obj
          [("left", Json.num 8), ("right", Json.num 8),
           ("top", Json.null), ("bottom", Json.null)]) :=
  ⟨rfl, (C3_properties [("paddingLeft", Json.num 8), ("paddingRight", Json.num 8)]).2.2.2.2.2.2.2.2.2 rfl⟩

/-- C9: a matched record's `name` field is a present string containing
`"Button"` (for nodes within the data model, whose `name` is a string or
absent), and a node with a missing `name` can never match, since the missing
name is treated as the empty string. -/
theorem C9_name_invariant :
    (∀ (fields : List (String × Json)) (path : String), nameWF fields →
        matchB fields = true →
        ∃ s, componentField (mkComponent fields path) "name" = some (Json.str s) ∧
          strContains s "Button" = true) ∧
    (∀ fields : List (String × Json), lookupField fields "name" = none →
        nodeMatches fields = Except.ok false) := by
  constructor
  · intro fields path hwf hm
    have h2 := (nodeMatches_iff fields hwf).mp ((matchB_true_iff fields).mp hm)
    rcases hwf with hn | ⟨s, hn⟩
    · rw [show nameString fields = "" by simp [nameString, hn]] at h2
      exact absurd h2.2 (by decide)
    · refine ⟨s, ?_, ?_⟩
      · simp [componentField, mkComponent, lookupField, getOrNull, hn]
      · rw [show nameString fields = s by simp [nameString, hn]] at h2
        exact h2.2
  · intro fields hn
    unfold nodeMatches
    by_cases ht : typeIsComponent fields
    · simp [ht, hn, pyContains]
      decide
    · simp [ht]

/-- Witness for C9 at a concrete matched node. -/
theorem C9_name_invariant_witness :
    ∃ s,
      componentField
          (mkComponent [("type", Json.str "COMPONENT"), ("name", Json.str "ButtonX")] "/p")
          "name" = some (Json.str s) ∧
        strContains s "Button" = true :=
  C9_name_invariant.1 [("type", Json.str "COMPONENT"), ("name", Json.str "ButtonX")] "/p"
    (Or.inr ⟨"ButtonX", rfl⟩) rfl

/-- A single Button component under a named root, used as a concrete test
document. -/
def sampleChild : List (String × Json) :=
  [("type", Json.str "COMPONENT"), ("name", Json.str "Button")]

/-- A document root named `"Root"` with the one Button child. -/
def sampleRoot : Json :=
  Json.obj [("name", Json.str "Root"), ("children", Json.arr [Json.obj sampleChild])]

/-- A parsed input file whose `document` is `sampleRoot`. -/
def sampleData : Json := Json.obj [("document", sampleRoot)]

/-- C2 as stated is false on the code: for the Button node whose ancestor
chain from the document root is the single node named `"Root"`, the recorded
`path` is `"/Root"`, while the ancestor names root-to-parent joined by `"/"`
are `"Root"` — the code prepends `"/"` before every ancestor name, including
the first. -/
theorem C2_counterexample :
    find_components sampleRoot "" [] =
      Except.ok [Json.obj [("name", Json.str "Button"), ("id", Json.null),
        ("path", Json.str "/Root"), ("properties", Json.obj [])]] ∧
    ReachesVia sampleRoot "" ["Root"] (Json.obj sampleChild) "/Root" ∧
    ("/Root" : String) ≠ String.intercalate "/" ["Root"] := by
  refine ⟨?_, ?_, by decide⟩
  · simp [sampleRoot, sampleChild, find_components_obj, find_components_children,
      nodeMatches, typeIsComponent, lookupField, pyContains, strContains,
      charsContainSub, charsLeadWith, mkComponent, extractProps, getOrNull, hasKey,
      childPath, nodeNameStr, pyStr]
  · exact ReachesVia.child _ _ _ _ _ _ _ rfl (by simp) (ReachesVia.here _ _)

/-- C2 (amended): for every matched node, the recorded `path` equals the
concatenation, over the ancestors from the document root down to the parent,
of `"/"` followed by the ancestor's name — equivalently, each node's path is
its parent's path `++ "/" ++` the parent's name, the root having the empty
path. -/
theorem C2_path_rule :
    ∀ (root : Json) (ns : List String) (fields : List (String × Json))
      (q : String) (l : List Json),
      ReachesVia root "" ns (Json.obj fields) q →
      matchB fields = true →
      find_components root "" [] = Except.ok l →
      mkComponent fields q ∈ l ∧
      componentField (mkComponent fields q) "path" = some (Json.str q) ∧
      q = ns.foldl (fun a s => a ++ "/" ++ s) "" := by
  intro root ns fields q l hreach hm hrun
  refine ⟨?_, rfl, reachesVia_path hreach⟩
  rw [find_components_ok_eq root "" [] l hrun]
  simp only [List.nil_append]
  exact mkComponent_mem_matchedComponents (reachesVia_mem_visits hreach rfl) hm

/-- Witness for the amended C2 on the concrete document: the Button child of
`"Root"` is recorded with path `"/Root" = "" ++ "/" ++ "Root"`. -/
theorem C2_path_rule_witness :
    mkComponent sampleChild "/Root" ∈
      [Json.obj [("name", Json.str "Button"), ("id", Json.null),
        ("path", Json.str "/Root"), ("properties", Json.obj [])]] ∧
    componentField (mkComponent sampleChild "/Root") "path" = some (Json.str "/Root") ∧
    "/Root" = (["Root"] : List String).foldl (fun a s => a ++ "/" ++ s) "" :=
  C2_path_rule sampleRoot ["Root"] sampleChild "/Root" _
    (ReachesVia.child _ _ _ _ _ _ _ rfl (by simp) (ReachesVia.here _ _))
    rfl
    (by simp [sampleRoot, sampleChild, find_components_obj, find_components_children,
      nodeMatches, typeIsComponent, lookupField, pyContains, strContains,
      charsContainSub, charsLeadWith, mkComponent, extractProps, getOrNull, hasKey,
      childPath, nodeNameStr, pyStr])

/-- C4: when extraction succeeds, the persisted file content is exactly the
serialisation of the first `min(10, totalMatches)` matched components, a
prefix of the match sequence in traversal order, and the empty JSON array
when there are no matches. -/
theorem C4_persisted_sample :
    ∀ (data : Json) (comps : List Json),
      extract_button_tokens data = Except.ok comps →
      persistedSample data = Except.ok (jsonDump (Json.arr (comps.take 10)) 0) ∧
      (comps.take 10).length = min 10 comps.length ∧
      comps.take 10 ++ comps.drop 10 = comps ∧
      (comps = [] → persistedSample data = Except.ok "[]") := by
  intro data comps h
  refine ⟨by simp [persistedSample, h], List.length_take 10 comps,
    List.take_append_drop 10 comps, ?_⟩
  intro hc
  subst hc
  simp [persistedSample, h, jsonDump]

/-- Witness for C4 on a document with no matches: the persisted content is
the empty JSON array. -/
theorem C4_persisted_sample_witness :
    persistedSample (Json.obj []) = Except.ok "[]" :=
  (C4_persisted_sample (Json.obj []) []
    (by simp [extract_button_tokens, lookupField, find_components_obj, nodeMatches,
      typeIsComponent])).2.2.2 rfl

/-- C5: the walk is a pre-order depth-first traversal — on success its output
appends to the accumulator exactly the matched components of the pre-order
visit sequence (node before its children, children in their given order,
matching not preventing descent into children), in visitation order; and
non-dict nodes are never traversed further and never match. -/
theorem C5_traversal :
    (∀ (node : Json) (path : String) (acc l : List Json),
        find_components node path acc = Except.ok l →
        l = acc ++ matchedComponents (preorderVisits node path)) ∧
    (∀ (path : String) (acc : List Json),
        find_components Json.null path acc = Except.ok acc ∧
        (∀ b, find_components (Json.bool b) path acc = Except.ok acc) ∧
        (∀ n : Int, find_components (Json.num n) path acc = Except.ok acc) ∧
        (∀ s, find_components (Json.str s) path acc = Except.ok acc) ∧
        (∀ xs, find_components (Json.arr xs) path acc = Except.ok acc ∧
          preorderVisits (Json.arr xs) path = [])) := by
  refine ⟨find_components_ok_eq, ?_⟩
  intro path acc
  refine ⟨?_, fun b => ?_, fun n => ?_, fun s => ?_, fun xs => ⟨?_, ?_⟩⟩
  · rw [find_components.eq_def]
  · rw [find_components.eq_def]
  · rw [find_components.eq_def]
  · rw [find_components.eq_def]
  · rw [find_components.eq_def]
  · rw [preorderVisits.eq_def]

/-- Witness for C5 on the concrete document: the one matched component is the
matched part of the visit sequence. -/
theorem C5_traversal_witness :
    ([Json.obj [("name", Json.str "Button"), ("id", Json.null),
        ("path", Json.str "/Root"), ("properties", Json.obj [])]] : List Json) =
      [] ++ matchedComponents (preorderVisits sampleRoot "") :=
  C5_traversal.1 sampleRoot "" [] _
    (by simp [sampleRoot, sampleChild, find_components_obj, find_components_children,
      nodeMatches, typeIsComponent, lookupField, pyContains, strContains,
      charsContainSub, charsLeadWith, mkComponent, extractProps, getOrNull, hasKey,
      childPath, nodeNameStr, pyStr])

/-- C6: a missing input file exits with status 1 after the not-found message
and never writes the output file; an input file that fails to parse exits
with status 1 after printing the parser's message, likewise without touching
the output file. -/
theorem C6_error_paths :
    runMain none =
      { exitCode := 1, written := none,
        errLines := ["❌ No se encontró el archivo file-full.json",
                     "   Ejecuta primero el comando para descargar el archivo"] } ∧
    ∀ e : String,
      runMain (some (Except.error e)) =
        { exitCode := 1, written := none, errLines := ["❌ Error: " ++ e] } :=
  ⟨rfl, fun _ => rfl⟩

/-- C7: an input object without the top-level `document` key extracts from an
empty-object root: no failure, zero matches, and an empty JSON array is
written. -/
theorem C7_missing_document :
    ∀ fs : List (String × Json), lookupField fs "document" = none →
      extract_button_tokens (Json.obj fs) = Except.ok [] ∧
      persistedSample (Json.obj fs) = Except.ok "[]" := by
  intro fs h
  have he : extract_button_tokens (Json.obj fs) = Except.ok [] := by
    simp [extract_button_tokens, h, find_components_obj, nodeMatches, typeIsComponent,
      lookupField]
  exact ⟨he, by simp [persistedSample, he, jsonDump]⟩

/-- Witness for C7 at the empty top-level object. -/
theorem C7_missing_document_witness :
    extract_button_tokens (Json.obj []) = Except.ok [] ∧
      persistedSample (Json.obj []) = Except.ok "[]" :=
  C7_missing_document [] rfl

/-- C8: extraction is deterministic — the run outcome, in particular the byte
content written to the output file, is a function of the parsed input
document alone, so two runs on the same unchanged input produce identical
(byte-identical) outputs.  In the embedding every input of the script is an
explicit argument and the run is a pure function, which is exactly this
hyperproperty. -/
theorem C8_deterministic :
    ∀ d1 d2 : Json, d1 = d2 →
      runMain (some (Except.ok d1)) = runMain (some (Except.ok d2)) := by
  intro d1 d2 h
  rw [h]

/-- Witness for C8 at the concrete document. -/
theorem C8_deterministic_witness :
    runMain (some (Except.ok sampleData)) = runMain (some (Except.ok sampleData)) :=
  C8_deterministic sampleData sampleData rfl

/-- C10: along any walk that starts at the document root with the empty path,
a reached node's accumulated path (which is what a matched node records) is
the empty string exactly for the root itself, and otherwise starts with
`"/"`, because every descent step appends `"/"` before the parent's name even
when the accumulated path is still empty. -/
theorem C10_leading_slash :
    ∀ (root : Json) (ns : List String) (m : Json) (q : String),
      ReachesVia root "" ns m q →
      (ns = [] → q = "" ∧ m = root) ∧
      (q = "" → ns = [] ∧ m = root) ∧
      (ns ≠ [] → ∃ r, q = "/" ++ r) := by
  intro root ns m q h
  have hq := reachesVia_path h
  have h1 : ns = [] → q = "" ∧ m = root := by
    intro hns
    subst hns
    cases h
    exact ⟨rfl, rfl⟩
  have key : ns ≠ [] → ∃ r, q = "/" ++ r := by
    intro hne
    cases ns with
    | nil => exact absurd rfl hne
    | cons n rest =>
        obtain ⟨r, hr⟩ := pathFoldl_extends rest ("" ++ "/" ++ n)
        simp only [List.foldl] at hq
        rw [hq, hr]
        exact ⟨n ++ r, by apply String.ext; simp⟩
  refine ⟨h1, ?_, key⟩
  intro hqe
  cases ns with
  | nil => exact ⟨rfl, (h1 rfl).2⟩
  | cons n rest =>
      exfalso
      obtain ⟨r, hr⟩ := key (by simp)
      rw [hqe] at hr
      have := congrArg String.data hr
      simp at this

/-- Witness for C10 on the concrete document: the reached Button node's path
starts with `"/"`. -/
theorem C10_leading_slash_witness : ∃ r, ("/Root" : String) = "/" ++ r :=
  (C10_leading_slash sampleRoot ["Root"] (Json.obj sampleChild) "/Root"
    (ReachesVia.child _ _ _ _ _ _ _ rfl (by simp) (ReachesVia.here _ _))).2.2
    (by simp)
